import Mathlib

/-!
The ledger, scanner and uploader of go-filetransfer-example

A shallow embedding of `internal/storage.go`, `internal/reader.go`,
`internal/uploader.go` and the pipeline of `main.go`, followed by the proofs of
the properties C1 to C10.

* Go strings are Lean `String`s, a `time.Time` is the instant it denotes.
* `Storage.items` (a Go map allocated by `NewFileStorage`) is an association
  list with at most one entry per key after an assignment to that key.
* Every `Storage` method runs with `itemsMutex` held from entry to return, so
  each method is one atomic transition of the ledger.
* The operating system, the clock, the context and the S3 client are not part
  of the repository: their answers are inputs of the model (`FileSystem`,
  `Attempt`, the `done` polls), and the JSON encoder and decoder are the
  fields of `Codec`.
* `filepath.Clean`, `filepath.Join`, `filepath.Base` and `strings.Join` follow
  the Go standard library on a Unix system (separator `/`, no volume names).
* A channel is the list of values sent on it and not yet received; a finite
  list stands for a channel that is closed after its last value.
* Goroutines are interleaved at the points where they touch shared state
  (`Pool.step`): the receive from the channel and the `SetItem` on the ledger.
-/

namespace FileTransfer

/-! ## Standard library helpers -/

/-- Go `os.IsPathSeparator` on Unix. -/
def isPathSeparator (c : Char) : Bool := c = '/'

/-- True at the end of the path or in front of a separator: the test
`r+1 == n || os.IsPathSeparator(path[r+1])` of `filepath.Clean`. -/
def endOrSeparator : List Char → Bool
  | [] => true
  | c :: _ => isPathSeparator c

/-- The backtracking of `filepath.Clean` at a `..` element, on the reversed
output buffer: `out.w--`, then `out.w--` again while `out.w > dotdot` and the
byte at `out.w` is not a separator. -/
def backtrack (dotdot : Nat) : List Char → List Char
  | [] => []
  | c :: rest =>
    if decide (rest.length > dotdot) && !isPathSeparator c then backtrack dotdot rest else rest

/-- The main loop `for r < n` of `filepath.Clean`. `path` is what is left to
read, `out` the reversed output buffer, `dotdot` the index where `..` must
stop. Each round reads at least one byte, so `fuel = n` rounds suffice. -/
def cleanLoop (rooted : Bool) : Nat → List Char → List Char → Nat → List Char
  | 0, _, out, _ => out
  | _ + 1, [], out, _ => out
  | fuel + 1, c :: rest, out, dotdot =>
    if isPathSeparator c then
      -- empty path element
      cleanLoop rooted fuel rest out dotdot
    else if c = '.' ∧ endOrSeparator rest = true then
      -- . element
      cleanLoop rooted fuel rest out dotdot
    else if c = '.' ∧ rest.head? = some '.' ∧ endOrSeparator rest.tail = true then
      -- .. element: remove to last separator
      if out.length > dotdot then
        cleanLoop rooted fuel rest.tail (backtrack dotdot out) dotdot
      else if !rooted then
        let out1 := if out.length > 0 then '/' :: out else out
        let out2 := '.' :: '.' :: out1
        cleanLoop rooted fuel rest.tail out2 out2.length
      else
        cleanLoop rooted fuel rest.tail out dotdot
    else
      -- real path element: add slash if needed, then copy the element
      let out1 :=
        if (rooted && out.length != 1) || (!rooted && out.length != 0) then '/' :: out else out
      let elem := (c :: rest).takeWhile (fun x => !isPathSeparator x)
      cleanLoop rooted fuel ((c :: rest).dropWhile (fun x => !isPathSeparator x))
        (elem.reverse ++ out1) dotdot

end FileTransfer

namespace filepath

open FileTransfer

/-- Go `filepath.Clean` (Unix): the shortest path name equivalent to `path`. -/
def Clean (path : String) : String :=
  match path.data with
  | [] => "."
  | c :: rest =>
    let rooted := isPathSeparator c
    let out :=
      if rooted then cleanLoop true (rest.length + 1) rest ['/'] 1
      else cleanLoop false (rest.length + 1) (c :: rest) [] 0
    if out.length = 0 then "." else String.mk out.reverse

/-- Go `filepath.Join` (Unix): empty elements in front are ignored, the rest is
joined with `/` and cleaned; all elements empty gives the empty string. -/
def Join : List String → String
  | [] => ""
  | e :: rest => if e ≠ "" then Clean (String.intercalate "/" (e :: rest)) else Join rest

/-- Go `filepath.Base` (Unix): the last element of `path`, after trailing
separators are removed; `.` for the empty path and `/` for a path of
separators only. -/
def Base (path : String) : String :=
  if path = "" then "."
  else
    let stripped := path.data.reverse.dropWhile isPathSeparator
    let last := stripped.takeWhile (fun c => !isPathSeparator c)
    if last = [] then "/" else String.mk last.reverse

end filepath

namespace strings

/-- Go `strings.Join`: the elements with `sep` between them. -/
def Join (elems : List String) (sep : String) : String := String.intercalate sep elems

end strings

namespace FileTransfer

/-! ## Data model -/

/-- A `time.Time`, as the instant it denotes counted from the zero `time.Time`. -/
abbrev Time := Int

/-- The type `UploadRecord` of `uploader.go`. -/
structure UploadRecord where
  /-- The path within the bucket that the file was uploaded to. -/
  Key : String
  /-- When the upload began. -/
  Start : Time
  /-- When the upload completed. -/
  End : Time
deriving DecidableEq, Repr

/-- A Go `map[string]UploadRecord` as its reads see it. The nil map, which only
`Load` of a `null` document leaves behind, reads as the map without entries. -/
abbrev Items := List (String × UploadRecord)

/-- The map read `ret, ok := m[k]`: `none` stands for `ok == false`. -/
def mapIndex : Items → String → Option UploadRecord
  | [], _ => none
  | (k1, r) :: rest, k => if k1 = k then some r else mapIndex rest k

/-- The map write `m[k] = r` on an allocated map: afterwards `k` has the single
entry `r`. -/
def mapAssign (m : Items) (k : String) (r : UploadRecord) : Items :=
  (k, r) :: m.filter (fun e => decide (e.1 ≠ k))

/-- How many entries the map holds under key `k`. -/
def mapCount (m : Items) (k : String) : Nat :=
  (m.filter (fun e => decide (e.1 = k))).length

/-- The type `Storage` of `storage.go`; `itemsMutex` is the atomicity of the methods. -/
structure Storage where
  /-- The path to the JSON file recording all file transfers. -/
  Path : String
  /-- The in-memory store of all successful transfers. -/
  items : Items
deriving DecidableEq, Repr

/-- The constructor `NewFileStorage`: a ledger for `path` with an empty map. -/
def NewFileStorage (path : String) : Storage :=
  { Path := path, items := [] }

/-- The method `Storage.SetItem`: `s.items[path] = record`. -/
def Storage.SetItem (s : Storage) (path : String) (record : UploadRecord) : Storage :=
  { s with items := mapAssign s.items path record }

/-- The method `Storage.GetItem`: a copy of the record under `path`, or `none` for the nil
pointer, together with the ledger as the call leaves it. -/
def Storage.GetItem (s : Storage) (path : String) : Option UploadRecord × Storage :=
  match mapIndex s.items path with
  | some ret => (some ret, s)
  | none => (none, s)

/-! ## The file system and the JSON codec -/

/-- What `os.Open` answers for a path. -/
inductive OpenResult (β : Type) where
  /-- An error for which `os.IsNotExist` holds. -/
  | notExist : OpenResult β
  /-- Any other error. -/
  | failed : String → OpenResult β
  /-- The file was opened; `content` is what reading it yields. -/
  | file : β → OpenResult β

/-- The interface `fs.DirEntry`, as far as the Scanner looks at it. -/
structure DirEntry where
  Name : String
  IsDir : Bool
deriving DecidableEq, Repr

/-- The file system seen by the program; `β` is the type of file contents. -/
structure FileSystem (β : Type) where
  /-- Answer of `os.Open`. -/
  Open : String → OpenResult β
  /-- Error of `os.Create`, `none` when the file can be created or truncated. -/
  Create : String → Option String
  /-- Answer of `os.ReadDir`: the entries sorted by file name, or an error. -/
  ReadDir : String → Except String (List DirEntry)

/-- The file system after `path` was created or truncated and `content` written. -/
def FileSystem.write {β : Type} (fs : FileSystem β) (path : String) (content : β) :
    FileSystem β :=
  { fs with Open := fun p => if p = path then OpenResult.file content else fs.Open p }

/-- The JSON document of a snapshot, as far as `Decode(&s.items)` acts on the
target map. -/
inductive Document where
  /-- The value `null`: the decoder sets the target map to nil. -/
  | null : Document
  /-- Any other document: the object members the decoder stores into the target
  map, in document order (none for a value that is not an object, and those
  stored before the decoder stopped for a document it rejects). -/
  | object : List (String × UploadRecord) → Document

/-- What `Decode(&s.items)` does with a file content: its action on the target
map and the error it returns. -/
structure DecodeResult where
  doc : Document
  err : Option String

/-- The members the decoder stores; a `null` document has none. -/
def DecodeResult.members (d : DecodeResult) : List (String × UploadRecord) :=
  match d.doc with
  | Document.null => []
  | Document.object members => members

/-- The `encoding/json` encoder and decoder for `map[string]UploadRecord`. -/
structure Codec (β : Type) where
  /-- Content of a file that was created and not written to. -/
  Empty : β
  /-- The call `enc.Encode(&s.items)`: the bytes written, or the error returned. -/
  Encode : Items → Except String β
  /-- The call `json.NewDecoder(f).Decode(&s.items)` on a file content. -/
  Decode : β → DecodeResult

/-- The decoder stores into the existing map: entries already present stay,
and each member of the document is assigned under its key. -/
def decodeInto (members : List (String × UploadRecord)) (m : Items) : Items :=
  members.foldl (fun acc e => mapAssign acc e.1 e.2) m

/-- The method `Storage.Save`: create the file at `s.Path` and encode the map into it.
Returns the file system afterwards and the error (`none` for nil). -/
def Storage.Save {β : Type} (c : Codec β) (fs : FileSystem β) (s : Storage) :
    FileSystem β × Option String :=
  match fs.Create s.Path with
  | some err => (fs, some ("unable to open " ++ s.Path ++ " file for writing: " ++ err))
  | none =>
    match c.Encode s.items with
    | Except.error err =>
      (fs.write s.Path c.Empty,
        some ("unable to serialize file upload log to " ++ s.Path ++ " file for writing: " ++ err))
    | Except.ok content => (fs.write s.Path content, none)

/-- The method `Storage.Load`: open the file at `s.Path`; a missing file is not an error;
otherwise decode it into `s.items`. Returns the ledger afterwards and the
error (`none` for nil). For a `null` document the decoder sets `s.items` to the
nil map, which every read sees as a map without entries: the ledger is left
with `items := []`. -/
def Storage.Load {β : Type} (c : Codec β) (fs : FileSystem β) (s : Storage) :
    Storage × Option String :=
  match fs.Open s.Path with
  | OpenResult.notExist => (s, none)
  | OpenResult.failed err =>
    (s, some ("unable to open or create " ++ s.Path ++ " file for reading: " ++ err))
  | OpenResult.file content =>
    let d := c.Decode content
    let s1 : Storage :=
      match d.doc with
      | Document.null => { s with items := [] }
      | Document.object members => { s with items := decodeInto members s.items }
    match d.err with
    | some err =>
      (s1, some ("unable to unserialize file upload log from " ++ s.Path ++ " file: " ++ err))
    | none => (s1, none)

/-! ## Scanner (`reader.go`) -/

/-- The method `Reader.isExcluded`: directories and files with a ledger record under
`file.Name()` are skipped. -/
def isExcluded (s : Storage) (file : DirEntry) : Bool × Storage :=
  if file.IsDir then (true, s)
  else
    match s.GetItem file.Name with
    | (some _, s1) => (true, s1)
    | (none, s1) => (false, s1)

/-- Outcome of `Reader.ReadDir`. -/
structure ReadDirResult where
  /-- The paths sent on `out`, in order. -/
  out : List String
  /-- The ledger afterwards. -/
  storage : Storage
  /-- The returned error, `none` for nil. -/
  err : Option String
deriving DecidableEq, Repr

/-- The loop of `Reader.ReadDir` over the entries. `done n` tells whether
`ctx.Done()` is ready at the `n`-th `select` from here on. -/
def readDirLoop (dir : String) :
    (Nat → Bool) → List DirEntry → Storage → List String → ReadDirResult
  | _, [], s, out => { out := out, storage := s, err := none }
  | done, file :: files, s, out =>
    if done 0 then
      { out := out, storage := s, err := some "Aborting sync: context canceled" }
    else
      let path := filepath.Join [dir, file.Name]
      match isExcluded s file with
      | (true, s1) => readDirLoop dir (fun n => done (n + 1)) files s1 out
      | (false, s1) => readDirLoop dir (fun n => done (n + 1)) files s1 (out ++ [path])

/-- The method `Reader.ReadDir`: list `dir` once and send the path of every entry that is
not excluded. -/
def ReadDir {β : Type} (fs : FileSystem β) (done : Nat → Bool) (s : Storage) (dir : String) :
    ReadDirResult :=
  match fs.ReadDir dir with
  | Except.error err =>
    { out := [], storage := s, err := some ("failed to read " ++ dir ++ ": " ++ err) }
  | Except.ok files => readDirLoop dir done files s []

/-! ## Uploader (`uploader.go`) -/

/-- The type `S3Uploader`, without the client and the shared ledger pointer. -/
structure S3Uploader where
  /-- The name of the bucket to upload to. -/
  Bucket : String
  /-- The base path for keys to be stored in the bucket. -/
  BucketPrefix : String
deriving DecidableEq, Repr

/-- What the environment answers during one round of the `UploaderThread` loop. -/
structure Attempt where
  /-- Whether `ctx.Done()` is ready at the `select`. -/
  done : Bool
  /-- Error of `os.Open(path)`, `none` when the file opens. -/
  openErr : Option String
  /-- First `time.Now()` of `uploadFile`. -/
  start : Time
  /-- Error of `Client.PutObject`, `none` when the store accepts the object. -/
  putErr : Option String
  /-- Second `time.Now()` of `uploadFile`. -/
  finish : Time

/-- The method `S3Uploader.uploadFile`: the record and the error (`none` for nil). -/
def S3Uploader.uploadFile (u : S3Uploader) (a : Attempt) (path : String) :
    UploadRecord × Option String :=
  let ret : UploadRecord := { Key := "", Start := a.start, End := 0 }
  let ret : UploadRecord := { ret with Key := strings.Join [u.BucketPrefix, path] "/" }
  match a.putErr with
  | some err => (ret, some ("could not upload archive " ++ ret.Key ++ " to S3: " ++ err))
  | none => ({ ret with End := a.finish }, none)

/-- Outcome of one `UploaderThread`. -/
structure ThreadResult where
  /-- What is left in the channel when the thread returns. -/
  files : List String
  /-- The ledger afterwards. -/
  storage : Storage
  /-- The paths given to `os.Open`, in order. -/
  opened : List String
  /-- The keys given to `PutObject`, in order. -/
  puts : List String
  /-- The returned error, `none` for nil. -/
  err : Option String
deriving DecidableEq, Repr

/-- The method `S3Uploader.UploaderThread`. `files` is what the thread receives from the
channel before it is closed; `env n` answers the `n`-th round from here on. -/
def S3Uploader.UploaderThread (u : S3Uploader) :
    (Nat → Attempt) → List String → Storage → ThreadResult
  | _, [], s => { files := [], storage := s, opened := [], puts := [], err := none }
  | env, path :: files, s =>
    if (env 0).done then
      { files := files, storage := s, opened := [], puts := [],
        err := some "Aborted uploader thread: context canceled" }
    else
      match (env 0).openErr with
      | some err =>
        { files := files, storage := s, opened := [path], puts := [],
          err := some ("failed to open file " ++ path ++ ": " ++ err) }
      | none =>
        match u.uploadFile (env 0) (filepath.Base path) with
        | (record, some err) =>
          { files := files, storage := s, opened := [path], puts := [record.Key],
            err := some ("failed to upload file " ++ path ++ ": " ++ err) }
        | (record, none) =>
          let r := u.UploaderThread (fun n => env (n + 1)) files (s.SetItem path record)
          { r with opened := path :: r.opened, puts := record.Key :: r.puts }

end FileTransfer

namespace FileTransfer

/-! ## The pipeline of `main.go` -/

/-- The function `setup`, as far as the ledger goes: a new ledger for `recordPath`, loaded
from the snapshot. The second component is the setup error. -/
def setup {β : Type} (c : Codec β) (fs : FileSystem β) (recordPath : String) :
    Storage × Option String :=
  match (NewFileStorage recordPath).Load c fs with
  | (s, some err) => (s, some ("could not load storage entries: " ++ err))
  | (s, none) => (s, none)

/-- Outcome of one synchronisation run. -/
structure RunResult (β : Type) where
  /-- The file system after the deferred `storage.Save()`. -/
  fs : FileSystem β
  /-- The paths the Scanner put on the channel. -/
  queued : List String
  /-- The keys given to `PutObject`. -/
  puts : List String
  /-- The ledger at the end of the run. -/
  storage : Storage

/-- The function `run` with the Scanner followed by one `UploaderThread` that takes every
path from the channel, and the deferred `storage.Save()` at the end. -/
def run {β : Type} (c : Codec β) (u : S3Uploader) (basePath : String) (done : Nat → Bool)
    (env : Nat → Attempt) (fs : FileSystem β) (storage : Storage) : RunResult β :=
  let rd := ReadDir fs done storage basePath
  let th := u.UploaderThread env rd.out rd.storage
  { fs := (th.storage.Save c fs).1, queued := rd.out, puts := th.puts, storage := th.storage }

/-- One execution of the program: `setup`, then `run` unless setup failed. -/
def syncOnce {β : Type} (c : Codec β) (u : S3Uploader) (recordPath basePath : String)
    (done : Nat → Bool) (env : Nat → Attempt) (fs : FileSystem β) : Option (RunResult β) :=
  match setup c fs recordPath with
  | (_, some _) => none
  | (storage, none) => some (run c u basePath done env fs storage)

/-! ## A pool of concurrent uploader threads -/

/-- Where one `UploaderThread` of the pool stands. -/
inductive Worker where
  /-- At the head of the loop, about to receive from the channel. -/
  | waiting : Worker
  /-- The file is open and `uploadFile` is running for this path. -/
  | uploading : String → Worker
  /-- The thread has returned with this error (`none` for nil). -/
  | returned : Option String → Worker
deriving DecidableEq, Repr

/-- The shared state of `run`: the channel, the threads and the ledger. -/
structure Pool where
  /-- The paths still in the channel, which the Scanner closes after the last. -/
  queue : List String
  /-- The `concurrency` uploader threads. -/
  workers : List Worker
  /-- The shared ledger. -/
  storage : Storage
deriving DecidableEq, Repr

/-- The pool at the start of `run`. -/
def Pool.init (n : Nat) (queue : List String) (storage : Storage) : Pool :=
  { queue := queue, workers := List.replicate n Worker.waiting, storage := storage }

/-- Thread `i` runs up to its next synchronisation point. A waiting thread
receives the next path (or returns nil on the closed, empty channel), polls the
context and opens the file; an uploading thread finishes `uploadFile` and, on
success, does its `SetItem` under the ledger lock. `env i path` answers the
round in which thread `i` handles `path`. -/
def Pool.step (u : S3Uploader) (env : Nat → String → Attempt) (p : Pool) (i : Nat) : Pool :=
  match p.workers[i]? with
  | none => p
  | some (Worker.returned _) => p
  | some Worker.waiting =>
    match p.queue with
    | [] => { p with workers := p.workers.set i (Worker.returned none) }
    | path :: rest =>
      if (env i path).done then
        let w := Worker.returned (some "Aborted uploader thread: context canceled")
        { p with queue := rest, workers := p.workers.set i w }
      else
        match (env i path).openErr with
        | some err =>
          let w := Worker.returned (some ("failed to open file " ++ path ++ ": " ++ err))
          { p with queue := rest, workers := p.workers.set i w }
        | none => { p with queue := rest, workers := p.workers.set i (Worker.uploading path) }
  | some (Worker.uploading path) =>
    match u.uploadFile (env i path) (filepath.Base path) with
    | (_, some err) =>
      let w := Worker.returned (some ("failed to upload file " ++ path ++ ": " ++ err))
      { p with workers := p.workers.set i w }
    | (record, none) =>
      { p with workers := p.workers.set i Worker.waiting,
               storage := p.storage.SetItem path record }

/-- The pool after the threads ran in the order given by `schedule`. -/
def Pool.exec (u : S3Uploader) (env : Nat → String → Attempt) (p : Pool) (schedule : List Nat) :
    Pool :=
  schedule.foldl (Pool.step u env) p

/-- All threads have returned. -/
def Pool.finished (p : Pool) : Bool :=
  p.workers.all (fun w => match w with
    | Worker.returned _ => true
    | _ => false)

/-! ## Notions used to state the claims -/

/-- The entries the Scanner lets through: not a directory, and no ledger
record under the entry's name. -/
def notExcluded (s : Storage) (file : DirEntry) : Bool :=
  !file.IsDir && (s.GetItem file.Name).1.isNone

/-- The record of a transfer of `path` that completed in round `a`. -/
def recordOf (u : S3Uploader) (a : Attempt) (path : String) : UploadRecord :=
  { Key := strings.Join [u.BucketPrefix, filepath.Base path] "/",
    Start := a.start, End := a.finish }

/-- Round `a` goes through: the file opens and the store accepts the object. -/
def Attempt.succeeds (a : Attempt) : Prop := a.openErr = none ∧ a.putErr = none

instance (a : Attempt) : Decidable a.succeeds := by
  unfold Attempt.succeeds
  exact inferInstance

/-- What holds of the pool at every moment of a run in which every round goes
through: each path is still queued, or in flight, or recorded exactly once;
nothing else in the ledger has changed; a thread has returned only after the
channel was drained. -/
structure PoolInv (u : S3Uploader) (env : Nat → String → Attempt) (n : Nat)
    (paths : List String) (s : Storage) (P : Pool) : Prop where
  accounted : ∀ p, p ∈ paths → p ∈ P.queue ∨
    (∃ i : Nat, P.workers[i]? = some (Worker.uploading p)) ∨
    (∃ i : Nat, mapIndex P.storage.items p = some (recordOf u (env i p) p) ∧
      mapCount P.storage.items p = 1)
  others : ∀ k, k ∉ paths → mapIndex P.storage.items k = mapIndex s.items k ∧
    mapCount P.storage.items k = mapCount s.items k
  queueSub : ∀ p, p ∈ P.queue → p ∈ paths
  busySub : ∀ (i : Nat) (p : String), P.workers[i]? = some (Worker.uploading p) → p ∈ paths
  closed : ∀ (i : Nat) (e : Option String), P.workers[i]? = some (Worker.returned e) → P.queue = []
  size : P.workers.length = n

/-! ## Inputs used to instantiate the parameters -/

/-- A codec whose file content is the list of members itself. -/
def listCodec : Codec Items :=
  { Empty := [],
    Encode := fun m => Except.ok m,
    Decode := fun b => { doc := Document.object b, err := none } }

/-- A file system with no snapshot file, in which `/data` holds the regular
files `a.txt` and `b.txt` and the directory `sub`. -/
def dataFS : FileSystem Items :=
  { Open := fun _ => OpenResult.notExist,
    Create := fun _ => none,
    ReadDir := fun dir =>
      if dir = "/data" then
        Except.ok [⟨"a.txt", false⟩, ⟨"b.txt", false⟩, ⟨"sub", true⟩]
      else Except.error "no such file or directory" }

/-- A round in which the context is live, the file opens and the store accepts. -/
def goodAttempt (start finish : Time) : Attempt :=
  { done := false, openErr := none, start := start, putErr := none, finish := finish }

/-- The uploader of the examples. -/
def demoUploader : S3Uploader := { Bucket := "bucket", BucketPrefix := "backup" }

/-- A record of the examples. -/
def recordA : UploadRecord := { Key := "backup/a.txt", Start := 10, End := 12 }

/-- Another record of the examples. -/
def recordB : UploadRecord := { Key := "backup/b.txt", Start := 13, End := 17 }

/-- A ledger for `rec.json` holding one record under the key `a.txt`. -/
def ledgerA : Storage := { Path := "rec.json", items := [("a.txt", recordA)] }

/-- A ledger for `rec.json` holding two records. -/
def ledgerAB : Storage :=
  { Path := "rec.json", items := [("/data/b.txt", recordB), ("/data/a.txt", recordA)] }

/-- A file system whose snapshot `rec.json` holds the single member `b.txt`. -/
def snapshotFS : FileSystem Items :=
  dataFS.write "rec.json" [("b.txt", recordB)]

/-- A codec whose file content is `none` for the document `null` and the list
of members for an object. -/
def nullableCodec : Codec (Option Items) :=
  { Empty := some [],
    Encode := fun m => Except.ok (some m),
    Decode := fun b =>
      match b with
      | none => { doc := Document.null, err := none }
      | some members => { doc := Document.object members, err := none } }

/-- A file system whose snapshot `rec.json` holds the document `null`. -/
def nullSnapshotFS : FileSystem (Option Items) :=
  { Open := fun p => if p = "rec.json" then OpenResult.file none else OpenResult.notExist,
    Create := fun _ => none,
    ReadDir := fun _ => Except.error "no such file or directory" }

/-- Three candidate paths. -/
def threeFiles : List String := ["/data/a.txt", "/data/b.txt", "/data/c.txt"]

/-- Every round goes through; round `n` starts at `2n` and ends at `2n+1`. -/
def liveEnv : Nat → Attempt := fun n => goodAttempt (2 * n) (2 * n + 1)

/-- Like `liveEnv`, but the store rejects the object of round 1. -/
def failingEnv : Nat → Attempt := fun n =>
  if n = 1 then { goodAttempt 2 3 with putErr := some "AccessDenied" } else liveEnv n

/-- The context is cancelled from the start. -/
def cancelledEnv : Nat → Attempt := fun n => { liveEnv n with done := true }

/-- An uploader with the empty key base. -/
def bareUploader : S3Uploader := { Bucket := "bucket", BucketPrefix := "" }

/-- Every round of every thread goes through. -/
def poolEnv : Nat → String → Attempt := fun i _ => goodAttempt (2 * i) (2 * i + 1)

/-- An interleaving of two threads that drains three paths. -/
def demoSchedule : List Nat := [0, 1, 1, 0, 0, 1, 1, 0, 0]

end FileTransfer

namespace FileTransfer

/-! ## Lemmas on the map -/

theorem mapIndex_filter_ne (m : Items) (k k1 : String) (h : k1 ≠ k) :
    mapIndex (m.filter (fun e => decide (e.1 ≠ k))) k1 = mapIndex m k1 := by
  induction m with
  | nil => rfl
  | cons e rest ih =>
    obtain ⟨a, r⟩ := e
    by_cases ha : a = k
    · have hne : a ≠ k1 := fun h1 => h (h1.symm.trans ha)
      have hd : decide ((a, r).1 ≠ k) = false := by simp [ha]
      rw [List.filter_cons, hd]
      simp only [Bool.false_eq_true, if_false, mapIndex, hne]
      exact ih
    · have hd : decide ((a, r).1 ≠ k) = true := by simp [ha]
      rw [List.filter_cons, hd]
      simp only [if_true, mapIndex]
      rw [ih]

theorem mapIndex_mapAssign_self (m : Items) (k : String) (r : UploadRecord) :
    mapIndex (mapAssign m k r) k = some r := by
  simp [mapAssign, mapIndex]

theorem mapIndex_mapAssign_ne (m : Items) (k k1 : String) (r : UploadRecord) (h : k1 ≠ k) :
    mapIndex (mapAssign m k r) k1 = mapIndex m k1 := by
  have hne : k ≠ k1 := fun h1 => h h1.symm
  unfold mapAssign
  simp only [mapIndex, hne, if_false]
  exact mapIndex_filter_ne m k k1 h

theorem mapCount_mapAssign_self (m : Items) (k : String) (r : UploadRecord) :
    mapCount (mapAssign m k r) k = 1 := by
  simp [mapAssign, mapCount, List.filter_filter]

theorem mapCount_mapAssign_ne (m : Items) (k k1 : String) (r : UploadRecord) (h : k1 ≠ k) :
    mapCount (mapAssign m k r) k1 = mapCount m k1 := by
  have hne : k ≠ k1 := fun h1 => h h1.symm
  simp only [mapAssign, mapCount, List.filter_cons, hne, decide_False, List.filter_filter]
  simp only [Bool.false_eq_true, if_false]
  congr 1
  apply List.filter_congr
  intro e _
  by_cases he : e.1 = k1
  · simp [he, h]
  · simp [he]

theorem mapIndex_eq_none_iff (m : Items) (k : String) :
    mapIndex m k = none ↔ ∀ r, (k, r) ∉ m := by
  induction m with
  | nil => simp [mapIndex]
  | cons e rest ih =>
    obtain ⟨a, r⟩ := e
    by_cases ha : a = k
    · subst ha
      simp only [mapIndex, if_true]
      constructor
      · intro h; cases h
      · intro h; exact absurd (List.mem_cons_self _ _) (h r)
    · simp only [mapIndex, ha, if_false, ih]
      constructor
      · intro h r1 hmem
        rcases List.mem_cons.1 hmem with h1 | h1
        · exact ha (by cases h1; rfl)
        · exact h r1 h1
      · intro h r1 hmem
        exact h r1 (List.mem_cons_of_mem _ hmem)

theorem getItem_fst (s : Storage) (k : String) : (s.GetItem k).1 = mapIndex s.items k := by
  unfold Storage.GetItem
  cases mapIndex s.items k <;> rfl

theorem getItem_snd (s : Storage) (k : String) : (s.GetItem k).2 = s := by
  unfold Storage.GetItem
  cases mapIndex s.items k <;> rfl

/-! ## Lemmas on the decoder -/

theorem mapIndex_decodeInto (ms : List (String × UploadRecord)) (m : Items) (k : String) :
    mapIndex (decodeInto ms m) k = (mapIndex (decodeInto ms []) k <|> mapIndex m k) := by
  induction ms generalizing m with
  | nil => simp [decodeInto, mapIndex]
  | cons e rest ih =>
    have h1 : decodeInto (e :: rest) m = decodeInto rest (mapAssign m e.1 e.2) := rfl
    have h2 : decodeInto (e :: rest) [] = decodeInto rest (mapAssign [] e.1 e.2) := rfl
    rw [h1, h2, ih (mapAssign m e.1 e.2), ih (mapAssign [] e.1 e.2)]
    by_cases hk : k = e.1
    · subst hk
      rw [mapIndex_mapAssign_self, mapIndex_mapAssign_self]
      cases mapIndex (decodeInto rest []) e.1 <;> simp
    · rw [mapIndex_mapAssign_ne _ _ _ _ hk, mapIndex_mapAssign_ne _ _ _ _ hk]
      cases mapIndex (decodeInto rest []) k <;> simp [mapIndex]

theorem mapIndex_decodeInto_nil (ms : List (String × UploadRecord)) (m : Items) (k : String)
    (h : m = []) : mapIndex (decodeInto ms m) k = mapIndex (decodeInto ms []) k := by
  rw [h]

theorem mapIndex_eq_none_of_not_mem_keys (m : Items) (k : String)
    (h : k ∉ m.map Prod.fst) : mapIndex m k = none := by
  rw [mapIndex_eq_none_iff]
  intro r hmem
  exact h (List.mem_map.2 ⟨(k, r), hmem, rfl⟩)

/-- Decoding the members of a map with pairwise different keys into an empty
map gives that map back: `listCodec` is faithful on such maps. -/
theorem mapIndex_decodeInto_self (m : Items) (h : (m.map Prod.fst).Nodup) (k : String) :
    mapIndex (decodeInto m []) k = mapIndex m k := by
  induction m with
  | nil => rfl
  | cons e rest ih =>
    obtain ⟨a, r⟩ := e
    have hnd : a ∉ rest.map Prod.fst ∧ (rest.map Prod.fst).Nodup := by
      simpa [List.nodup_cons] using h
    have h1 : decodeInto ((a, r) :: rest) [] = decodeInto rest (mapAssign [] a r) := rfl
    rw [h1, mapIndex_decodeInto, ih hnd.2]
    by_cases hk : a = k
    · subst hk
      rw [mapIndex_eq_none_of_not_mem_keys rest a hnd.1]
      simp [mapAssign, mapIndex]
    · have hk1 : k ≠ a := fun h2 => hk h2.symm
      rw [mapIndex_mapAssign_ne _ _ _ _ hk1]
      cases hr : mapIndex rest k <;> simp [mapIndex, hk, hr]

/-! ## The ledger claims -/

/-- C8: after `SetItem(k, r)`, `GetItem(k)` returns `r`, which is the only
entry under `k`, and `GetItem` of every other key returns what it returned
before; `GetItem` returns absent exactly
when the map holds no record under the key, and `GetItem` leaves the ledger as
it was. -/
theorem ledger_get_set_contract (s : Storage) (r : UploadRecord) (k k1 : String)
    (h : k1 ≠ k) :
    ((s.SetItem k r).GetItem k).1 = some r ∧
    mapCount (s.SetItem k r).items k = 1 ∧
    ((s.SetItem k r).GetItem k1).1 = (s.GetItem k1).1 ∧
    ((s.GetItem k).1 = none ↔ ∀ r1, (k, r1) ∉ s.items) ∧
    (s.GetItem k).2 = s := by
  refine ⟨?_, mapCount_mapAssign_self s.items k r, ?_, ?_, getItem_snd s k⟩
  · rw [getItem_fst]
    exact mapIndex_mapAssign_self s.items k r
  · rw [getItem_fst, getItem_fst]
    exact mapIndex_mapAssign_ne s.items k k1 r h
  · rw [getItem_fst]
    exact mapIndex_eq_none_iff s.items k

/-- The get/set contract on the one-record ledger, overwriting `a.txt`. -/
theorem ledger_get_set_contract_witness :
    "b.txt" ≠ "a.txt" ∧
    ((ledgerA.SetItem "a.txt" recordB).GetItem "a.txt").1 = some recordB ∧
    mapCount (ledgerA.SetItem "a.txt" recordB).items "a.txt" = 1 ∧
    ((ledgerA.SetItem "a.txt" recordB).GetItem "b.txt").1 = (ledgerA.GetItem "b.txt").1 ∧
    ((ledgerA.GetItem "a.txt").1 = none ↔ ∀ r1, ("a.txt", r1) ∉ ledgerA.items) ∧
    (ledgerA.GetItem "a.txt").2 = ledgerA :=
  ⟨by decide, ledger_get_set_contract ledgerA recordB "a.txt" "b.txt" (by decide)⟩

/-- C7: `Load` of a ledger created by `NewFileStorage` for a path that does not
exist returns nil and the ledger has no record under any key; and for every
ledger `Load` returns an error exactly when the file cannot be opened for
another reason or is opened and the decoder returns an error. -/
theorem load_missing_snapshot {β : Type} (c : Codec β) (fs : FileSystem β) (path : String)
    (h : fs.Open path = OpenResult.notExist) :
    ((NewFileStorage path).Load c fs).2 = none ∧
    (∀ k, (((NewFileStorage path).Load c fs).1.GetItem k).1 = none) ∧
    (∀ s : Storage, (s.Load c fs).2 ≠ none ↔
      ((∃ e, fs.Open s.Path = OpenResult.failed e) ∨
       (∃ content, fs.Open s.Path = OpenResult.file content ∧ (c.Decode content).err ≠ none))) := by
  have hp : (NewFileStorage path).Path = path := rfl
  refine ⟨?_, ?_, ?_⟩
  · simp [Storage.Load, hp, h]
  · intro k
    simp [Storage.Load, hp, h, getItem_fst, NewFileStorage, mapIndex]
  · intro s
    unfold Storage.Load
    cases ho : fs.Open s.Path with
    | notExist => simp
    | failed e => simp
    | file content =>
      cases hd : (c.Decode content).err with
      | none => simp [hd]
      | some e => simp [hd]

/-- Loading when `rec.json` is missing from `dataFS`. -/
theorem load_missing_snapshot_witness :
    dataFS.Open "rec.json" = OpenResult.notExist ∧
    ((NewFileStorage "rec.json").Load listCodec dataFS).2 = none ∧
    (∀ k, (((NewFileStorage "rec.json").Load listCodec dataFS).1.GetItem k).1 = none) ∧
    (∀ s : Storage, (s.Load listCodec dataFS).2 ≠ none ↔
      ((∃ e, dataFS.Open s.Path = OpenResult.failed e) ∨
       (∃ content, dataFS.Open s.Path = OpenResult.file content ∧
          (listCodec.Decode content).err ≠ none))) :=
  ⟨rfl, load_missing_snapshot listCodec dataFS "rec.json" rfl⟩

/-- C6, as stated, fails: the ledger holds `a.txt`, the snapshot parses and has
no member `a.txt`, and after `Load` the key `a.txt` is still present, so the map
is not the deserialized snapshot. -/
theorem load_keeps_stale_key :
    (ledgerA.Load listCodec snapshotFS).2 = none ∧
    mapIndex (decodeInto (listCodec.Decode [("b.txt", recordB)]).members []) "a.txt" = none ∧
    ((ledgerA.Load listCodec snapshotFS).1.GetItem "a.txt").1 = some recordA := by
  decide

/-- C6, amended: when the snapshot exists and parses, `Load` returns nil. If
the document is an object, afterwards every key has the record the snapshot
gives it, and a key the snapshot does not mention keeps the record it had
before. If the document is `null`, no key has a record afterwards. On a ledger
whose map was empty before, the map is the deserialized snapshot. -/
theorem load_merges_snapshot {β : Type} (c : Codec β) (fs : FileSystem β) (s : Storage)
    (content : β) (ho : fs.Open s.Path = OpenResult.file content)
    (hd : (c.Decode content).err = none) :
    (s.Load c fs).2 = none ∧
    (∀ members, (c.Decode content).doc = Document.object members →
      ∀ k, ((s.Load c fs).1.GetItem k).1 =
        (mapIndex (decodeInto members []) k <|> (s.GetItem k).1)) ∧
    ((c.Decode content).doc = Document.null → ∀ k, ((s.Load c fs).1.GetItem k).1 = none) ∧
    (s.items = [] → ∀ k, ((s.Load c fs).1.GetItem k).1 =
      mapIndex (decodeInto (c.Decode content).members []) k) := by
  refine ⟨?_, ?_, ?_, ?_⟩
  · simp [Storage.Load, ho, hd]
  · intro members hm k
    have hl : s.Load c fs = ({ s with items := decodeInto members s.items }, none) := by
      simp [Storage.Load, ho, hd, hm]
    rw [hl, getItem_fst, getItem_fst]
    exact mapIndex_decodeInto _ _ _
  · intro hn k
    have hl : s.Load c fs = ({ s with items := [] }, none) := by
      simp [Storage.Load, ho, hd, hn]
    rw [hl, getItem_fst]
    rfl
  · intro he k
    cases hdoc : (c.Decode content).doc with
    | null =>
      have hl : s.Load c fs = ({ s with items := [] }, none) := by
        simp [Storage.Load, ho, hd, hdoc]
      rw [hl, getItem_fst]
      simp [DecodeResult.members, hdoc, decodeInto]
    | object members =>
      have hl : s.Load c fs = ({ s with items := decodeInto members s.items }, none) := by
        simp [Storage.Load, ho, hd, hdoc]
      rw [hl, getItem_fst]
      simp only [DecodeResult.members, hdoc]
      exact mapIndex_decodeInto_nil _ _ _ he

/-- Loading the snapshot with member `b.txt`, and loading the snapshot `null`,
into the ledger that holds `a.txt`. -/
theorem load_merges_snapshot_witness :
    (snapshotFS.Open ledgerA.Path = OpenResult.file [("b.txt", recordB)] ∧
     (listCodec.Decode [("b.txt", recordB)]).err = none ∧
     (listCodec.Decode [("b.txt", recordB)]).doc = Document.object [("b.txt", recordB)] ∧
     (ledgerA.Load listCodec snapshotFS).2 = none ∧
     ∀ k, ((ledgerA.Load listCodec snapshotFS).1.GetItem k).1 =
       (mapIndex (decodeInto [("b.txt", recordB)] []) k <|> (ledgerA.GetItem k).1)) ∧
    (nullSnapshotFS.Open ledgerA.Path = OpenResult.file none ∧
     (nullableCodec.Decode none).err = none ∧
     (nullableCodec.Decode none).doc = Document.null ∧
     (ledgerA.Load nullableCodec nullSnapshotFS).2 = none ∧
     ∀ k, ((ledgerA.Load nullableCodec nullSnapshotFS).1.GetItem k).1 = none) :=
  ⟨⟨rfl, rfl, rfl,
      (load_merges_snapshot listCodec snapshotFS ledgerA [("b.txt", recordB)] rfl rfl).1,
      (load_merges_snapshot listCodec snapshotFS ledgerA [("b.txt", recordB)] rfl rfl).2.1
        [("b.txt", recordB)] rfl⟩,
    ⟨rfl, rfl, rfl,
      (load_merges_snapshot nullableCodec nullSnapshotFS ledgerA none rfl rfl).1,
      (load_merges_snapshot nullableCodec nullSnapshotFS ledgerA none rfl rfl).2.2.1 rfl⟩⟩

/-- C5: if `Save` succeeds and the decoder reads what the encoder wrote for
this map (no error, the same record under every key), then `Load` on a ledger
newly created for the same path succeeds and `GetItem` agrees with the saved
ledger on every key. -/
theorem save_load_round_trip {β : Type} (c : Codec β) (fs : FileSystem β) (s : Storage)
    (hs : (s.Save c fs).2 = none)
    (hc : ∀ content, c.Encode s.items = Except.ok content →
      (c.Decode content).err = none ∧
      ∀ k, mapIndex (decodeInto (c.Decode content).members []) k = mapIndex s.items k) :
    ((NewFileStorage s.Path).Load c (s.Save c fs).1).2 = none ∧
    ∀ k, (((NewFileStorage s.Path).Load c (s.Save c fs).1).1.GetItem k).1 = (s.GetItem k).1 := by
  unfold Storage.Save at hs ⊢
  cases hcr : fs.Create s.Path with
  | some e => simp [hcr] at hs
  | none =>
    cases he : c.Encode s.items with
    | error e => simp [hcr, he] at hs
    | ok content =>
      obtain ⟨hd, hk⟩ := hc content he
      have hp : (NewFileStorage s.Path).Path = s.Path := rfl
      have hl : (NewFileStorage s.Path).Load c (fs.write s.Path content) =
          ({ Path := s.Path, items := decodeInto (c.Decode content).members [] }, none) := by
        simp only [Storage.Load, hp, FileSystem.write, if_true, hd, NewFileStorage,
          DecodeResult.members]
        cases (c.Decode content).doc <;> rfl
      simp only [hl]
      refine ⟨trivial, ?_⟩
      intro k
      rw [getItem_fst, getItem_fst]
      exact hk k

/-- Saving the two-record ledger to `dataFS` with `listCodec` and loading it. -/
theorem save_load_round_trip_witness :
    (ledgerAB.Save listCodec dataFS).2 = none ∧
    (∀ content, listCodec.Encode ledgerAB.items = Except.ok content →
      (listCodec.Decode content).err = none ∧
      ∀ k, mapIndex (decodeInto (listCodec.Decode content).members []) k
        = mapIndex ledgerAB.items k) ∧
    ((NewFileStorage ledgerAB.Path).Load listCodec (ledgerAB.Save listCodec dataFS).1).2 = none ∧
    ∀ k, (((NewFileStorage ledgerAB.Path).Load listCodec
      (ledgerAB.Save listCodec dataFS).1).1.GetItem k).1 = (ledgerAB.GetItem k).1 :=
  have hc : ∀ content, listCodec.Encode ledgerAB.items = Except.ok content →
      (listCodec.Decode content).err = none ∧
      ∀ k, mapIndex (decodeInto (listCodec.Decode content).members []) k
        = mapIndex ledgerAB.items k := by
    intro content h
    have h1 : content = ledgerAB.items := by
      simp only [listCodec] at h
      injection h with h2
      exact h2.symm
    subst h1
    exact ⟨rfl, fun k => mapIndex_decodeInto_self ledgerAB.items (by decide) k⟩
  ⟨rfl, hc, save_load_round_trip listCodec dataFS ledgerAB rfl hc⟩

theorem isExcluded_eq (s : Storage) (file : DirEntry) :
    isExcluded s file = (!notExcluded s file, s) := by
  unfold isExcluded notExcluded Storage.GetItem
  cases hd : file.IsDir
  · cases hm : mapIndex s.items file.Name <;> simp
  · simp

theorem readDirLoop_live (dir : String) (files : List DirEntry) (s : Storage) :
    ∀ (done : Nat → Bool) (out : List String), (∀ n, done n = false) →
      readDirLoop dir done files s out =
        { out := out ++ (files.filter (notExcluded s)).map (fun f => filepath.Join [dir, f.Name]),
          storage := s, err := none } := by
  induction files with
  | nil => intro done out _; simp [readDirLoop]
  | cons f rest ih =>
    intro done out hd
    have hshift : ∀ n, (fun n => done (n + 1)) n = false := fun n => hd (n + 1)
    unfold readDirLoop
    rw [hd 0, isExcluded_eq]
    cases hk : notExcluded s f
    · simp only [Bool.false_eq_true, if_false, Bool.not_false]
      rw [ih _ out hshift]
      simp [List.filter_cons, hk]
    · simp only [Bool.false_eq_true, if_false, Bool.not_true]
      rw [ih _ _ hshift]
      simp [List.filter_cons, hk]

/-- C2: when the listing of `dir` succeeds and the context is never cancelled,
`ReadDir` sends, in listing order, `filepath.Join(dir, name)` for exactly the
entries that are not directories and have no ledger record under `name`, leaves
the ledger as it was and returns nil. -/
theorem readDir_exclusion {β : Type} (fs : FileSystem β) (done : Nat → Bool) (s : Storage)
    (dir : String) (files : List DirEntry)
    (hl : fs.ReadDir dir = Except.ok files) (hd : ∀ n, done n = false) :
    ReadDir fs done s dir =
      { out := (files.filter (fun f => !f.IsDir && (s.GetItem f.Name).1.isNone)).map
          (fun f => filepath.Join [dir, f.Name]),
        storage := s, err := none } := by
  unfold ReadDir
  rw [hl]
  have h := readDirLoop_live dir files s done [] hd
  simpa [notExcluded] using h

/-- Scanning `/data` of `dataFS` with the ledger that holds `a.txt`. -/
theorem readDir_exclusion_witness :
    dataFS.ReadDir "/data" = Except.ok [⟨"a.txt", false⟩, ⟨"b.txt", false⟩, ⟨"sub", true⟩] ∧
    (∀ n, (fun _ : Nat => false) n = false) ∧
    ReadDir dataFS (fun _ => false) ledgerA "/data" =
      { out := ["/data/b.txt"], storage := ledgerA, err := none } :=
  ⟨rfl, fun _ => rfl,
    (readDir_exclusion dataFS (fun _ => false) ledgerA "/data"
      [⟨"a.txt", false⟩, ⟨"b.txt", false⟩, ⟨"sub", true⟩] rfl (fun _ => rfl)).trans
      (by decide)⟩

/-! ## The Uploader -/

theorem uploadFile_ok (u : S3Uploader) (a : Attempt) (path : String) (h : a.putErr = none) :
    u.uploadFile a (filepath.Base path) = (recordOf u a path, none) := by
  simp [S3Uploader.uploadFile, h, recordOf]

theorem uploadFile_fail (u : S3Uploader) (a : Attempt) (path : String) (h : a.putErr ≠ none) :
    (u.uploadFile a (filepath.Base path)).2 ≠ none := by
  unfold S3Uploader.uploadFile
  cases hp : a.putErr with
  | none => exact absurd hp h
  | some e => simp

theorem thread_cons_ok (u : S3Uploader) (env : Nat → Attempt) (p : String) (ps : List String)
    (s : Storage) (hd : (env 0).done = false) (hok : (env 0).succeeds) :
    u.UploaderThread env (p :: ps) s =
      { u.UploaderThread (fun n => env (n + 1)) ps (s.SetItem p (recordOf u (env 0) p)) with
        opened := p ::
          (u.UploaderThread (fun n => env (n + 1)) ps (s.SetItem p (recordOf u (env 0) p))).opened,
        puts := (recordOf u (env 0) p).Key ::
          (u.UploaderThread (fun n => env (n + 1)) ps (s.SetItem p (recordOf u (env 0) p))).puts } := by
  rw [S3Uploader.UploaderThread]
  simp only [hd, hok.1, uploadFile_ok u (env 0) p hok.2, Bool.false_eq_true, if_false]

theorem thread_cons_fail (u : S3Uploader) (env : Nat → Attempt) (p : String) (ps : List String)
    (s : Storage) (hd : (env 0).done = false)
    (hf : (env 0).openErr ≠ none ∨ (env 0).putErr ≠ none) :
    (u.UploaderThread env (p :: ps) s).err ≠ none ∧
    (u.UploaderThread env (p :: ps) s).storage = s ∧
    (u.UploaderThread env (p :: ps) s).files = ps ∧
    (u.UploaderThread env (p :: ps) s).opened = [p] := by
  rw [S3Uploader.UploaderThread]
  simp only [hd, Bool.false_eq_true, if_false]
  cases ho : (env 0).openErr with
  | some e => simp
  | none =>
    have hp : (env 0).putErr ≠ none := by
      rcases hf with h | h
      · exact absurd ho h
      · exact h
    have h2 := uploadFile_fail u (env 0) p hp
    cases hu : u.uploadFile (env 0) (filepath.Base p) with
    | mk record e =>
      rw [hu] at h2
      cases e with
      | none => exact absurd rfl h2
      | some e1 => simp

theorem thread_cons_done (u : S3Uploader) (env : Nat → Attempt) (p : String) (ps : List String)
    (s : Storage) (hd : (env 0).done = true) :
    u.UploaderThread env (p :: ps) s =
      { files := ps, storage := s, opened := [], puts := [],
        err := some "Aborted uploader thread: context canceled" } := by
  rw [S3Uploader.UploaderThread]
  simp only [hd, if_true]

/-- A thread only writes under keys it received from the channel. -/
theorem thread_storage_outside (u : S3Uploader) (files : List String) :
    ∀ (env : Nat → Attempt) (s : Storage) (k : String), k ∉ files →
      mapIndex (u.UploaderThread env files s).storage.items k = mapIndex s.items k := by
  induction files with
  | nil => intro env s k _; simp [S3Uploader.UploaderThread]
  | cons p ps ih =>
    intro env s k hk
    have hkp : k ≠ p := fun h => hk (h ▸ List.mem_cons_self _ _)
    have hkps : k ∉ ps := fun h => hk (List.mem_cons_of_mem _ h)
    cases hd : (env 0).done with
    | true => rw [thread_cons_done u env p ps s hd]
    | false =>
      by_cases hok : (env 0).succeeds
      · rw [thread_cons_ok u env p ps s hd hok]
        simp only
        rw [ih _ _ k hkps]
        exact mapIndex_mapAssign_ne _ _ _ _ hkp
      · have hf : (env 0).openErr ≠ none ∨ (env 0).putErr ≠ none := by
          unfold Attempt.succeeds at hok
          by_cases h1 : (env 0).openErr = none
          · exact Or.inr (fun h2 => hok ⟨h1, h2⟩)
          · exact Or.inl h1
        rw [(thread_cons_fail u env p ps s hd hf).2.1]

theorem not_succeeds_iff (a : Attempt) :
    ¬ a.succeeds ↔ (a.openErr ≠ none ∨ a.putErr ≠ none) := by
  unfold Attempt.succeeds
  constructor
  · intro h
    by_cases h1 : a.openErr = none
    · exact Or.inr (fun h2 => h ⟨h1, h2⟩)
    · exact Or.inl h1
  · rintro (h | h) ⟨h1, h2⟩
    · exact h h1
    · exact h h2

/-- A key whose record changed was received in a round that went through. -/
theorem thread_change_origin (u : S3Uploader) (files : List String) :
    ∀ (env : Nat → Attempt) (s : Storage) (k : String),
      mapIndex (u.UploaderThread env files s).storage.items k ≠ mapIndex s.items k →
      ∃ j, files[j]? = some k ∧ (env j).succeeds := by
  induction files with
  | nil => intro env s k h; exact absurd (by simp [S3Uploader.UploaderThread]) h
  | cons p ps ih =>
    intro env s k h
    cases hd : (env 0).done with
    | true => rw [thread_cons_done u env p ps s hd] at h; exact absurd rfl h
    | false =>
      by_cases hok : (env 0).succeeds
      · rw [thread_cons_ok u env p ps s hd hok] at h
        simp only at h
        by_cases hch : mapIndex (u.UploaderThread (fun n => env (n + 1)) ps
            (s.SetItem p (recordOf u (env 0) p))).storage.items k
            = mapIndex (s.SetItem p (recordOf u (env 0) p)).items k
        · by_cases hkp : k = p
          · exact ⟨0, by simp [hkp], hok⟩
          · rw [hch] at h
            exact absurd (mapIndex_mapAssign_ne _ _ _ _ hkp) h
        · obtain ⟨j, hj, hs⟩ := ih _ _ k hch
          exact ⟨j + 1, by simpa using hj, hs⟩
      · rw [(thread_cons_fail u env p ps s hd ((not_succeeds_iff _).1 hok)).2.1] at h
        exact absurd rfl h

/-- The run of a thread whose first failing round is round `i`. -/
theorem thread_first_failure (u : S3Uploader) (files : List String) :
    ∀ (env : Nat → Attempt) (s : Storage) (i : Nat), i < files.length →
      (∀ n, (env n).done = false) → (∀ j, j < i → (env j).succeeds) → ¬ (env i).succeeds →
      (u.UploaderThread env files s).err ≠ none ∧
      (u.UploaderThread env files s).opened = files.take (i + 1) ∧
      (u.UploaderThread env files s).files = files.drop (i + 1) ∧
      (∀ k, k ∈ files.take i → ∃ j, j < i ∧ files[j]? = some k ∧
        mapIndex (u.UploaderThread env files s).storage.items k = some (recordOf u (env j) k)) ∧
      (∀ k, k ∉ files.take i →
        mapIndex (u.UploaderThread env files s).storage.items k = mapIndex s.items k) := by
  induction files with
  | nil => intro env s i hi; exact absurd hi (Nat.not_lt_zero _)
  | cons p ps ih =>
    intro env s i hi hlive hok hfail
    cases i with
    | zero =>
      obtain ⟨h1, h2, h3, h4⟩ :=
        thread_cons_fail u env p ps s (hlive 0) ((not_succeeds_iff _).1 hfail)
      refine ⟨h1, by simpa using h4, by simpa using h3, ?_, ?_⟩
      · intro k hk; simp at hk
      · intro k _; rw [h2]
    | succ i1 =>
      have h0 : (env 0).succeeds := hok 0 (Nat.succ_pos _)
      have hi1 : i1 < ps.length := Nat.lt_of_succ_lt_succ hi
      obtain ⟨g1, g2, g3, g4, g5⟩ := ih (fun n => env (n + 1))
        (s.SetItem p (recordOf u (env 0) p)) i1 hi1 (fun n => hlive (n + 1))
        (fun j hj => hok (j + 1) (Nat.succ_lt_succ hj)) hfail
      rw [thread_cons_ok u env p ps s (hlive 0) h0]
      simp only
      refine ⟨g1, by simp [g2], by simpa using g3, ?_, ?_⟩
      · intro k hk
        by_cases hin : k ∈ ps.take i1
        · obtain ⟨j, hj, hf, hr⟩ := g4 k hin
          exact ⟨j + 1, Nat.succ_lt_succ hj, by simpa using hf, hr⟩
        · have hkp : k = p := by
            rcases List.mem_cons.1 (by simpa using hk) with h | h
            · exact h
            · exact absurd h hin
          refine ⟨0, Nat.succ_pos _, by simp [hkp], ?_⟩
          rw [g5 k hin, hkp]
          exact mapIndex_mapAssign_self _ _ _
      · intro k hk
        have hkp : k ≠ p := fun h => hk (by simp [h])
        have hin : k ∉ ps.take i1 := fun h => hk (by simp [h])
        rw [g5 k hin]
        exact mapIndex_mapAssign_ne _ _ _ _ hkp

/-- A record of the shape `uploadFile` produces stays of that shape under the
key `p` whatever the thread does afterwards. -/
theorem thread_keeps_shape (u : S3Uploader) (C : Prop) (files : List String) :
    ∀ (env : Nat → Attempt) (s : Storage) (p : String),
      (C → ∀ n, (env n).start ≤ (env n).finish) →
      (∃ r, mapIndex s.items p = some r ∧
        r.Key = u.BucketPrefix ++ "/" ++ filepath.Base p ∧ (C → r.Start ≤ r.End)) →
      ∃ r, mapIndex (u.UploaderThread env files s).storage.items p = some r ∧
        r.Key = u.BucketPrefix ++ "/" ++ filepath.Base p ∧ (C → r.Start ≤ r.End) := by
  induction files with
  | nil => intro env s p _ h; simpa [S3Uploader.UploaderThread] using h
  | cons q qs ih =>
    intro env s p hc h
    cases hd : (env 0).done with
    | true => rw [thread_cons_done u env q qs s hd]; exact h
    | false =>
      by_cases hok : (env 0).succeeds
      · rw [thread_cons_ok u env q qs s hd hok]
        simp only
        apply ih _ _ p (fun c n => hc c (n + 1))
        by_cases hqp : p = q
        · subst hqp
          refine ⟨recordOf u (env 0) p, mapIndex_mapAssign_self _ _ _, ?_, fun c => hc c 0⟩
          simp [recordOf, strings.Join, String.intercalate, String.intercalate.go]
        · obtain ⟨r, hr, hk, ht⟩ := h
          exact ⟨r, (mapIndex_mapAssign_ne _ _ _ _ hqp).trans hr, hk, ht⟩
      · rw [(thread_cons_fail u env q qs s hd ((not_succeeds_iff _).1 hok)).2.1]
        exact h

/-- The path received in round `j` has a record of the shape `uploadFile`
produces when all rounds up to `j` go through. -/
theorem thread_stores_shape (u : S3Uploader) (C : Prop) (files : List String) :
    ∀ (env : Nat → Attempt) (s : Storage) (j : Nat) (p : String), files[j]? = some p →
      (∀ n, n ≤ j → (env n).done = false) → (∀ n, n ≤ j → (env n).succeeds) →
      (C → ∀ n, (env n).start ≤ (env n).finish) →
      ∃ r, mapIndex (u.UploaderThread env files s).storage.items p = some r ∧
        r.Key = u.BucketPrefix ++ "/" ++ filepath.Base p ∧ (C → r.Start ≤ r.End) := by
  induction files with
  | nil => intro env s j p hp; simp at hp
  | cons q qs ih =>
    intro env s j p hp hlive hok hc
    rw [thread_cons_ok u env q qs s (hlive 0 (Nat.zero_le _)) (hok 0 (Nat.zero_le _))]
    simp only
    cases j with
    | zero =>
      have hqp : q = p := by simpa using hp
      subst hqp
      apply thread_keeps_shape u C qs _ _ q (fun c n => hc c (n + 1))
      refine ⟨recordOf u (env 0) q, mapIndex_mapAssign_self _ _ _, ?_, fun c => hc c 0⟩
      simp [recordOf, strings.Join, String.intercalate, String.intercalate.go]
    | succ j1 =>
      exact ih (fun n => env (n + 1)) _ j1 p (by simpa using hp)
        (fun n hn => hlive (n + 1) (Nat.succ_le_succ hn))
        (fun n hn => hok (n + 1) (Nat.succ_le_succ hn)) (fun c n => hc c (n + 1))

theorem failingEnv_live (n : Nat) : (failingEnv n).done = false := by
  unfold failingEnv
  split <;> rfl

/-! ## The uploader claims -/

/-- C3: with a context that is not cancelled, a key whose ledger record changed
was received in a round whose open and put both succeeded; and if round `i` is
the first that fails, the thread returns an error, has opened exactly the first
`i + 1` paths, each of the first `i` paths has the record of a round before `i`,
and every other key, the failing path and the paths after it included, has what
it had before. -/
theorem no_record_without_success (u : S3Uploader) (env : Nat → Attempt) (files : List String)
    (s : Storage) (hlive : ∀ n, (env n).done = false) :
    (∀ k, ((u.UploaderThread env files s).storage.GetItem k).1 ≠ (s.GetItem k).1 →
      ∃ j, files[j]? = some k ∧ (env j).openErr = none ∧ (env j).putErr = none) ∧
    (∀ i, i < files.length → (∀ j, j < i → (env j).succeeds) → ¬ (env i).succeeds →
      (u.UploaderThread env files s).err ≠ none ∧
      (u.UploaderThread env files s).opened = files.take (i + 1) ∧
      (∀ k, k ∈ files.take i → ∃ j, j < i ∧ files[j]? = some k ∧
        ((u.UploaderThread env files s).storage.GetItem k).1 = some (recordOf u (env j) k)) ∧
      (∀ k, k ∉ files.take i →
        ((u.UploaderThread env files s).storage.GetItem k).1 = (s.GetItem k).1)) := by
  constructor
  · intro k hk
    rw [getItem_fst, getItem_fst] at hk
    obtain ⟨j, hj, hs⟩ := thread_change_origin u files env s k hk
    exact ⟨j, hj, hs.1, hs.2⟩
  · intro i hi hok hfail
    obtain ⟨h1, h2, _, h4, h5⟩ := thread_first_failure u files env s i hi hlive hok hfail
    refine ⟨h1, h2, ?_, ?_⟩
    · intro k hk
      obtain ⟨j, hj, hf, hr⟩ := h4 k hk
      exact ⟨j, hj, hf, by rw [getItem_fst]; exact hr⟩
    · intro k hk
      rw [getItem_fst, getItem_fst]
      exact h5 k hk

/-- Three paths of which the second is rejected by the store: only the first
is recorded. -/
theorem no_record_without_success_witness :
    (∀ n, (failingEnv n).done = false) ∧
    ((demoUploader.UploaderThread failingEnv threeFiles (NewFileStorage "rec.json")).err ≠ none ∧
     (demoUploader.UploaderThread failingEnv threeFiles (NewFileStorage "rec.json")).opened
        = threeFiles.take (1 + 1) ∧
     (∀ k, k ∈ threeFiles.take 1 → ∃ j, j < 1 ∧ threeFiles[j]? = some k ∧
        ((demoUploader.UploaderThread failingEnv threeFiles
          (NewFileStorage "rec.json")).storage.GetItem k).1
          = some (recordOf demoUploader (failingEnv j) k)) ∧
     (∀ k, k ∉ threeFiles.take 1 →
        ((demoUploader.UploaderThread failingEnv threeFiles
          (NewFileStorage "rec.json")).storage.GetItem k).1
          = ((NewFileStorage "rec.json").GetItem k).1)) :=
  ⟨failingEnv_live,
    (no_record_without_success demoUploader failingEnv threeFiles (NewFileStorage "rec.json")
      failingEnv_live).2 1 (by decide)
      (fun j hj => by
        have h0 : j = 0 := Nat.lt_one_iff.1 hj
        subst h0
        exact ⟨rfl, rfl⟩)
      (by decide)⟩

/-- C9, as stated, fails: with the context already cancelled and two paths
pending, the thread has taken the first path from the channel when it returns,
and it returns an error. -/
theorem cancelled_thread_takes_item :
    (cancelledEnv 0).done = true ∧
    (demoUploader.UploaderThread cancelledEnv ["/data/a.txt", "/data/b.txt"]
      (NewFileStorage "rec.json")).files = ["/data/b.txt"] ∧
    (demoUploader.UploaderThread cancelledEnv ["/data/a.txt", "/data/b.txt"]
      (NewFileStorage "rec.json")).files ≠ ["/data/a.txt", "/data/b.txt"] ∧
    (demoUploader.UploaderThread cancelledEnv ["/data/a.txt", "/data/b.txt"]
      (NewFileStorage "rec.json")).err ≠ none := by
  decide

/-- C9, amended: when the context is cancelled at the thread's poll, the thread
has received one path, leaves the rest of the channel, opens no file, starts no
upload, leaves the ledger as it was and returns the abort error. -/
theorem cancelled_thread_stops (u : S3Uploader) (env : Nat → Attempt) (path : String)
    (files : List String) (s : Storage) (h : (env 0).done = true) :
    u.UploaderThread env (path :: files) s =
      { files := files, storage := s, opened := [], puts := [],
        err := some "Aborted uploader thread: context canceled" } := by
  exact thread_cons_done u env path files s h

/-- A cancelled thread facing three pending paths. -/
theorem cancelled_thread_stops_witness :
    (cancelledEnv 0).done = true ∧
    demoUploader.UploaderThread cancelledEnv ("/data/a.txt" :: ["/data/b.txt", "/data/c.txt"])
        ledgerA =
      { files := ["/data/b.txt", "/data/c.txt"], storage := ledgerA, opened := [], puts := [],
        err := some "Aborted uploader thread: context canceled" } :=
  ⟨rfl, cancelled_thread_stops demoUploader cancelledEnv "/data/a.txt"
    ["/data/b.txt", "/data/c.txt"] ledgerA rfl⟩

/-- C10: when the thread receives `p` in round `j` and every round up to `j`
goes through, the ledger afterwards has under `p` a record whose `Key` is the
configured base, `/` and `filepath.Base(p)`, and whose `End` is not before its
`Start` if each round's second clock reading is not before its first. -/
theorem stored_record_content (u : S3Uploader) (env : Nat → Attempt) (files : List String)
    (s : Storage) (j : Nat) (p : String) (hp : files[j]? = some p)
    (hlive : ∀ n, n ≤ j → (env n).done = false) (hok : ∀ n, n ≤ j → (env n).succeeds) :
    ∃ r, ((u.UploaderThread env files s).storage.GetItem p).1 = some r ∧
      r.Key = strings.Join [u.BucketPrefix, filepath.Base p] "/" ∧
      r.Key = u.BucketPrefix ++ "/" ++ filepath.Base p ∧
      ((∀ n, (env n).start ≤ (env n).finish) → r.Start ≤ r.End) := by
  obtain ⟨r, hr, hk, ht⟩ := thread_stores_shape u (∀ n, (env n).start ≤ (env n).finish)
    files env s j p hp hlive hok (fun c => c)
  refine ⟨r, by rw [getItem_fst]; exact hr, ?_, hk, ht⟩
  rw [hk]
  simp [strings.Join, String.intercalate, String.intercalate.go]

/-- The second of three uploads with the empty key base. -/
theorem stored_record_content_witness :
    threeFiles[1]? = some "/data/b.txt" ∧
    (∀ n, n ≤ 1 → (liveEnv n).done = false) ∧ (∀ n, n ≤ 1 → (liveEnv n).succeeds) ∧
    ∃ r, ((bareUploader.UploaderThread liveEnv threeFiles ledgerA).storage.GetItem
        "/data/b.txt").1 = some r ∧
      r.Key = strings.Join [bareUploader.BucketPrefix, filepath.Base "/data/b.txt"] "/" ∧
      r.Key = bareUploader.BucketPrefix ++ "/" ++ filepath.Base "/data/b.txt" ∧
      ((∀ n, (liveEnv n).start ≤ (liveEnv n).finish) → r.Start ≤ r.End) :=
  ⟨rfl, fun _ _ => rfl, fun _ _ => ⟨rfl, rfl⟩,
    stored_record_content bareUploader liveEnv threeFiles ledgerA 1 "/data/b.txt" rfl
      (fun _ _ => rfl) (fun _ _ => ⟨rfl, rfl⟩)⟩

/-! ## The pool of uploader threads -/

theorem set_lookup (l : List Worker) (i j : Nat) (a w : Worker)
    (h : (l.set i a)[j]? = some w) : (j = i ∧ w = a) ∨ (j ≠ i ∧ l[j]? = some w) := by
  rw [List.getElem?_set] at h
  by_cases hij : i = j
  · rw [if_pos hij] at h
    by_cases hl : i < l.length
    · rw [if_pos hl] at h
      exact Or.inl ⟨hij.symm, (Option.some.inj h).symm⟩
    · rw [if_neg hl] at h
      cases h
  · rw [if_neg hij] at h
    exact Or.inr ⟨fun h1 => hij h1.symm, h⟩

theorem lookup_set_other (l : List Worker) (i j : Nat) (a w v : Worker)
    (hi : l[i]? = some v) (hj : l[j]? = some w) (hne : w ≠ v) : (l.set i a)[j]? = some w := by
  have hij : i ≠ j := by
    intro h
    rw [h] at hi
    rw [hi] at hj
    exact hne (Option.some.inj hj).symm
  rw [List.getElem?_set_ne hij]
  exact hj

theorem lookup_lt (l : List Worker) (i : Nat) (w : Worker) (h : l[i]? = some w) :
    i < l.length := by
  by_contra hn
  rw [List.getElem?_eq_none (Nat.le_of_not_lt hn)] at h
  cases h

theorem poolInv_init (u : S3Uploader) (env : Nat → String → Attempt) (n : Nat)
    (paths : List String) (s : Storage) : PoolInv u env n paths s (Pool.init n paths s) where
  accounted := fun p hp => Or.inl hp
  others := fun _ _ => ⟨rfl, rfl⟩
  queueSub := fun _ hp => hp
  busySub := by
    intro i p h
    simp only [Pool.init, List.getElem?_replicate] at h
    split at h <;> cases h
  closed := by
    intro i e h
    simp only [Pool.init, List.getElem?_replicate] at h
    split at h <;> cases h
  size := by simp [Pool.init]

theorem step_idle (u : S3Uploader) (env : Nat → String → Attempt) (P : Pool) (i : Nat)
    (hw : P.workers[i]? = none ∨ ∃ e, P.workers[i]? = some (Worker.returned e)) :
    Pool.step u env P i = P := by
  unfold Pool.step
  rcases hw with h | ⟨e, h⟩ <;> rw [h]

theorem step_waiting_nil (u : S3Uploader) (env : Nat → String → Attempt) (P : Pool) (i : Nat)
    (hw : P.workers[i]? = some Worker.waiting) (hq : P.queue = []) :
    Pool.step u env P i =
      { queue := P.queue, workers := P.workers.set i (Worker.returned none),
        storage := P.storage } := by
  unfold Pool.step
  rw [hw]
  simp only
  rw [hq]

theorem step_waiting_cons (u : S3Uploader) (env : Nat → String → Attempt) (P : Pool) (i : Nat)
    (path : String) (rest : List String)
    (hw : P.workers[i]? = some Worker.waiting) (hq : P.queue = path :: rest)
    (hd : (env i path).done = false) (ho : (env i path).openErr = none) :
    Pool.step u env P i =
      { queue := rest, workers := P.workers.set i (Worker.uploading path),
        storage := P.storage } := by
  unfold Pool.step
  rw [hw]
  simp only
  rw [hq]
  simp only [hd, ho, Bool.false_eq_true, if_false]

theorem step_uploading (u : S3Uploader) (env : Nat → String → Attempt) (P : Pool) (i : Nat)
    (path : String) (hw : P.workers[i]? = some (Worker.uploading path))
    (hp : (env i path).putErr = none) :
    Pool.step u env P i =
      { queue := P.queue, workers := P.workers.set i Worker.waiting,
        storage := P.storage.SetItem path (recordOf u (env i path) path) } := by
  unfold Pool.step
  rw [hw]
  simp only
  rw [uploadFile_ok u (env i path) path hp]

theorem poolInv_step (u : S3Uploader) (env : Nat → String → Attempt) (n : Nat)
    (paths : List String) (s : Storage)
    (hok : ∀ i p, (env i p).done = false ∧ (env i p).succeeds)
    (P : Pool) (h : PoolInv u env n paths s P) (i : Nat) :
    PoolInv u env n paths s (Pool.step u env P i) := by
  cases hw : P.workers[i]? with
  | none => rw [step_idle u env P i (Or.inl hw)]; exact h
  | some w =>
    have hi : i < P.workers.length := lookup_lt _ _ _ hw
    cases w with
    | returned e => rw [step_idle u env P i (Or.inr ⟨e, hw⟩)]; exact h
    | waiting =>
      cases hq : P.queue with
      | nil =>
        rw [step_waiting_nil u env P i hw hq]
        refine ⟨?_, h.others, h.queueSub, ?_, fun _ _ _ => hq, ?_⟩
        · intro p hp
          rcases h.accounted p hp with h1 | ⟨j, hj⟩ | h3
          · exact Or.inl h1
          · exact Or.inr (Or.inl ⟨j, lookup_set_other _ _ _ _ _ _ hw hj (by simp)⟩)
          · exact Or.inr (Or.inr h3)
        · intro j p hj
          rcases set_lookup _ _ _ _ _ hj with ⟨_, h2⟩ | ⟨_, h2⟩
          · cases h2
          · exact h.busySub j p h2
        · simpa using h.size
      | cons path rest =>
        have hpath : path ∈ paths := h.queueSub path (by rw [hq]; exact List.mem_cons_self _ _)
        rw [step_waiting_cons u env P i path rest hw hq (hok i path).1 (hok i path).2.1]
        refine ⟨?_, h.others, ?_, ?_, ?_, ?_⟩
        · intro p hp
          rcases h.accounted p hp with h1 | ⟨j, hj⟩ | h3
          · rw [hq] at h1
            rcases List.mem_cons.1 h1 with h2 | h2
            · exact Or.inr (Or.inl ⟨i, by rw [h2]; exact List.getElem?_set_self hi⟩)
            · exact Or.inl h2
          · exact Or.inr (Or.inl ⟨j, lookup_set_other _ _ _ _ _ _ hw hj (by simp)⟩)
          · exact Or.inr (Or.inr h3)
        · intro p hp
          exact h.queueSub p (by rw [hq]; exact List.mem_cons_of_mem _ hp)
        · intro j p hj
          rcases set_lookup _ _ _ _ _ hj with ⟨_, h2⟩ | ⟨_, h2⟩
          · cases h2; exact hpath
          · exact h.busySub j p h2
        · intro j e hj
          rcases set_lookup _ _ _ _ _ hj with ⟨_, h2⟩ | ⟨_, h2⟩
          · cases h2
          · have h3 := h.closed j e h2
            rw [hq] at h3
            cases h3
        · simpa using h.size
    | uploading path =>
      have hpath : path ∈ paths := h.busySub i path hw
      rw [step_uploading u env P i path hw (hok i path).2.2]
      refine ⟨?_, ?_, h.queueSub, ?_, ?_, ?_⟩
      · intro p hp
        by_cases hpp : p = path
        · subst hpp
          exact Or.inr (Or.inr ⟨i, mapIndex_mapAssign_self _ _ _, mapCount_mapAssign_self _ _ _⟩)
        · rcases h.accounted p hp with h1 | ⟨j, hj⟩ | ⟨j, hj1, hj2⟩
          · exact Or.inl h1
          · refine Or.inr (Or.inl ⟨j, lookup_set_other _ _ _ _ _ _ hw hj ?_⟩)
            intro h2
            cases h2
            exact hpp rfl
          · exact Or.inr (Or.inr ⟨j, (mapIndex_mapAssign_ne _ _ _ _ hpp).trans hj1,
              (mapCount_mapAssign_ne _ _ _ _ hpp).trans hj2⟩)
      · intro k hk
        have hkp : k ≠ path := fun h2 => hk (h2 ▸ hpath)
        exact ⟨(mapIndex_mapAssign_ne _ _ _ _ hkp).trans (h.others k hk).1,
          (mapCount_mapAssign_ne _ _ _ _ hkp).trans (h.others k hk).2⟩
      · intro j p hj
        rcases set_lookup _ _ _ _ _ hj with ⟨_, h2⟩ | ⟨_, h2⟩
        · cases h2
        · exact h.busySub j p h2
      · intro j e hj
        rcases set_lookup _ _ _ _ _ hj with ⟨_, h2⟩ | ⟨_, h2⟩
        · cases h2
        · exact h.closed j e h2
      · simpa using h.size

theorem poolInv_exec (u : S3Uploader) (env : Nat → String → Attempt) (n : Nat)
    (paths : List String) (s : Storage)
    (hok : ∀ i p, (env i p).done = false ∧ (env i p).succeeds) (schedule : List Nat) :
    ∀ P, PoolInv u env n paths s P → PoolInv u env n paths s (Pool.exec u env P schedule) := by
  induction schedule with
  | nil => intro P h; exact h
  | cons i rest ih =>
    intro P h
    exact ih _ (poolInv_step u env n paths s hok P h i)

/-- C4: `n ≥ 1` uploader threads take the paths from the channel, every round
goes through, and the threads run in any interleaving in which each `SetItem`
is one step under the ledger lock. Once every thread has returned, each path
has exactly one ledger entry, the record of the round that handled it, and
every key that is not one of the paths has the entries it had before. (This
holds for any number of threads and paths, `N < M` included.) -/
theorem pool_records_each_path_once (u : S3Uploader) (env : Nat → String → Attempt) (n : Nat)
    (paths : List String) (s : Storage) (schedule : List Nat) (hn : 0 < n)
    (hok : ∀ i p, (env i p).done = false ∧ (env i p).succeeds)
    (hfin : (Pool.exec u env (Pool.init n paths s) schedule).finished = true) :
    (∀ p, p ∈ paths → ∃ i,
      ((Pool.exec u env (Pool.init n paths s) schedule).storage.GetItem p).1
        = some (recordOf u (env i p) p) ∧
      mapCount (Pool.exec u env (Pool.init n paths s) schedule).storage.items p = 1) ∧
    (∀ k, k ∉ paths →
      ((Pool.exec u env (Pool.init n paths s) schedule).storage.GetItem k).1 = (s.GetItem k).1 ∧
      mapCount (Pool.exec u env (Pool.init n paths s) schedule).storage.items k
        = mapCount s.items k) := by
  have inv := poolInv_exec u env n paths s hok schedule _ (poolInv_init u env n paths s)
  have hall : ∀ w, w ∈ (Pool.exec u env (Pool.init n paths s) schedule).workers →
      ∃ e, w = Worker.returned e := by
    intro w hw
    have h1 := List.all_eq_true.1 hfin w hw
    cases w with
    | returned e => exact ⟨e, rfl⟩
    | waiting => simp at h1
    | uploading p => simp at h1
  have hlookup : ∀ (j : Nat) (w : Worker),
      (Pool.exec u env (Pool.init n paths s) schedule).workers[j]? = some w →
      ∃ e, w = Worker.returned e := by
    intro j w hj
    exact hall w (List.getElem?_mem hj)
  have hq : (Pool.exec u env (Pool.init n paths s) schedule).queue = [] := by
    have h0 : 0 < (Pool.exec u env (Pool.init n paths s) schedule).workers.length := by
      rw [inv.size]; exact hn
    have h1 : (Pool.exec u env (Pool.init n paths s) schedule).workers[0]? =
        some ((Pool.exec u env (Pool.init n paths s) schedule).workers[0]) :=
      List.getElem?_eq_getElem h0
    obtain ⟨e, he⟩ := hlookup 0 _ h1
    rw [he] at h1
    exact inv.closed 0 e h1
  constructor
  · intro p hp
    rcases inv.accounted p hp with h1 | ⟨j, hj⟩ | ⟨j, hj1, hj2⟩
    · rw [hq] at h1
      cases h1
    · obtain ⟨e, he⟩ := hlookup j _ hj
      cases he
    · exact ⟨j, by rw [getItem_fst]; exact hj1, hj2⟩
  · intro k hk
    rw [getItem_fst, getItem_fst]
    exact inv.others k hk

/-- Two threads and three paths under `demoSchedule`. -/
theorem pool_records_each_path_once_witness :
    0 < 2 ∧
    (∀ i p, (poolEnv i p).done = false ∧ (poolEnv i p).succeeds) ∧
    (Pool.exec demoUploader poolEnv (Pool.init 2 threeFiles ledgerA) demoSchedule).finished
      = true ∧
    (∀ p, p ∈ threeFiles → ∃ i,
      ((Pool.exec demoUploader poolEnv (Pool.init 2 threeFiles ledgerA)
        demoSchedule).storage.GetItem p).1 = some (recordOf demoUploader (poolEnv i p) p) ∧
      mapCount (Pool.exec demoUploader poolEnv (Pool.init 2 threeFiles ledgerA)
        demoSchedule).storage.items p = 1) ∧
    (∀ k, k ∉ threeFiles →
      ((Pool.exec demoUploader poolEnv (Pool.init 2 threeFiles ledgerA)
        demoSchedule).storage.GetItem k).1 = (ledgerA.GetItem k).1 ∧
      mapCount (Pool.exec demoUploader poolEnv (Pool.init 2 threeFiles ledgerA)
        demoSchedule).storage.items k = mapCount ledgerA.items k) :=
  ⟨by decide, fun _ _ => ⟨rfl, rfl, rfl⟩, by decide,
    pool_records_each_path_once demoUploader poolEnv 2 threeFiles ledgerA demoSchedule
      (by decide) (fun _ _ => ⟨rfl, rfl, rfl⟩) (by decide)⟩

/-- C1 on the code: `/data` holds `a.txt`, `b.txt` and a directory, there is no
snapshot and the store accepts every put. The first run records both files
under their full paths; the second run, on the file system the first one left,
finds no record under the names it looks up, queues both paths again and
uploads both again. -/
theorem second_run_uploads_again :
    (syncOnce listCodec demoUploader "rec.json" "/data" (fun _ => false) liveEnv dataFS).map
        (fun first => (first.queued, first.storage.items.map Prod.fst,
          (first.storage.GetItem "a.txt").1))
      = some (["/data/a.txt", "/data/b.txt"], ["/data/b.txt", "/data/a.txt"], none) ∧
    ((syncOnce listCodec demoUploader "rec.json" "/data" (fun _ => false) liveEnv dataFS).bind
        (fun first =>
          syncOnce listCodec demoUploader "rec.json" "/data" (fun _ => false) liveEnv first.fs)).map
        (fun second => (second.queued, second.puts))
      = some (["/data/a.txt", "/data/b.txt"], ["backup/a.txt", "backup/b.txt"]) := by
  decide

end FileTransfer
